import Mathlib

/-!
# Verification of the dmenu-manager tag codec and selection resolver

Shallow embedding of `src/main.rs` of `abysssol/dmenu-manager`.
Text is modelled as `List Char`.  The modules `tag.rs` and `config.rs`
are not part of the sources; the definitions that come from them are
modelled from the specification and say so in their doc comment.
All other definitions are translated from `src/main.rs`.
-/

namespace DmenuManager

/-- An entry of the menu: `config.rs` structure `Entry` with a display
`name` and a command `run` (spec section 3). -/
structure Entry where
  name : List Char
  run : List Char
deriving DecidableEq

/-- Modelled from the spec: the `Separator` type of `config.rs` is not under
`src/`.  The configuration surface for the separator is
`absent | "none" | custom string` (spec section 6); a present override is
either the explicit request for no separator or a custom string. -/
inductive SeparatorOverride where
  | noSeparator
  | custom (s : List Char)
deriving DecidableEq

/-- Modelled from the spec: `Separator::custom_or` of `config.rs` is not under
`src/`.  Called in `construct_entries` as `sep.custom_or(def)`: a custom
override yields the custom string, the explicit "no separator" override
yields none (spec section 3, separator precedence). -/
def SeparatorOverride.custom_or (sep : SeparatorOverride) (_d : List Char) :
    Option (List Char) :=
  match sep with
  | .noSeparator => none
  | .custom s => some s

/-- The part of the merged configuration consumed by the core
(`config.rs` `Config`, spec section 3): the separator override and the
`ad_hoc` flag, both optional. -/
structure Config where
  separator : Option SeparatorOverride
  ad_hoc : Option Bool
deriving DecidableEq

/-- `config.rs` `Menu`: the ordered entry list and the merged configuration. -/
structure Menu where
  entries : List Entry
  config : Config
deriving DecidableEq

/-! ## Tag codec: Decimal (modelled from the spec, `tag.rs` not under `src/`) -/

/-- Modelled from the spec: `Decimal` of `tag.rs` is not under `src/`.
`encode(i)` is the unsigned base-10 digit string of `i`, no leading zeros,
no padding (spec section 4.1). -/
def decimalEncode (i : Nat) : List Char :=
  if i = 0 then ['0'] else ((Nat.digits 10 i).map Nat.digitChar).reverse

/-- The unsigned integer value of a run of ASCII digit characters,
most significant first (standard integer literal parsing). -/
def digitsVal (ds : List Char) : Nat :=
  ds.foldl (fun a c => 10 * a + (c.toNat - 48)) 0

/-- Modelled from the spec: `Decimal::find` of `tag.rs` is not under `src/`.
`decode` greedily consumes leading ASCII digits, parses them as an unsigned
integer, and accepts only if that integer is `< N`; otherwise it fails
(spec section 4.1). -/
def decimalDecode (n : Nat) (s : List Char) : Option Nat :=
  let ds := s.takeWhile Char.isDigit
  if ds = [] then none
  else if digitsVal ds < n then some (digitsVal ds) else none

/-! ## Tag codec: Ternary (modelled from the spec, `tag.rs` not under `src/`) -/

/-- Modelled from the spec: the fixed 3-symbol alphabet of `Ternary`
(`tag.rs`, not under `src/`): three distinct single characters fixed once
per run, conceptually digits 0,1,2 (spec section 4.1); the concrete choice
of adjacent keys is immaterial to the verified properties. -/
def ternSym (d : Nat) : Char :=
  if d = 0 then 'a' else if d = 1 then 's' else 'd'

/-- The digit value of a Ternary alphabet symbol, `none` for any other
character. -/
def ternSymVal (c : Char) : Option Nat :=
  if c = 'a' then some 0 else if c = 's' then some 1
  else if c = 'd' then some 2 else none

/-- Fuel-driven search for the least `v ≥ w` with `n ≤ 3 ^ v`. -/
def ternWidthAux (n : Nat) : Nat → Nat → Nat
  | 0, w => w
  | fuel + 1, w => if n ≤ 3 ^ w then w else ternWidthAux n fuel (w + 1)

/-- Modelled from the spec: the fixed width of the Ternary code for a run
with `n` entries is the minimum number of base-3 digits needed to uniquely
represent indices `0..n-1`, i.e. the least `w` with `n ≤ 3 ^ w`, which is
`ceil(log3 n)` (spec section 4.1; proved equal to `Nat.clog 3 n` below). -/
def ternWidth (n : Nat) : Nat :=
  ternWidthAux n n 0

/-- Zero-pad a little-endian digit list on the high end to width `w`. -/
def padRight (L : List Nat) (w : Nat) : List Nat :=
  L ++ List.replicate (w - L.length) 0

/-- Modelled from the spec: `Ternary` encoding at an explicit fixed width
`w`: the canonical base-3 representation of `i`, zero-padded with the
symbol representing digit 0 to exactly `w` symbols (spec section 4.1). -/
def ternEncodeW (w i : Nat) : List Char :=
  ((padRight (Nat.digits 3 i) w).map ternSym).reverse

/-- Modelled from the spec: `Ternary::new` of `tag.rs` is not under `src/`.
`encode(i)` for a run with `n` entries uses the run's fixed width
`ternWidth n`. -/
def ternEncode (n i : Nat) : List Char :=
  ternEncodeW (ternWidth n) i

/-- The digit values of a list of Ternary alphabet symbols, `none` if any
character is outside the alphabet. -/
def symVals : List Char → Option (List Nat)
  | [] => some []
  | c :: cs =>
    match ternSymVal c, symVals cs with
    | some d, some ds => some (d :: ds)
    | _, _ => none

/-- The value of a big-endian base-3 digit list. -/
def ternFold (ds : List Nat) : Nat :=
  ds.foldl (fun a d => 3 * a + d) 0

/-- Modelled from the spec: `Ternary::find` of `tag.rs` is not under `src/`.
`decode` consumes exactly the run's fixed number of leading alphabet
symbols and converts; any other leading character, or insufficient
remaining symbols, is a non-match, and per the codec contract it succeeds
exactly on encodings of valid indices of the current run, so a converted
value `≥ n` is also a non-match (spec section 4.1). -/
def ternDecode (n : Nat) (s : List Char) : Option Nat :=
  let pre := s.take (ternWidth n)
  if pre.length = ternWidth n then
    match symVals pre with
    | some ds => if ternFold ds < n then some (ternFold ds) else none
    | none => none
  else none

/-! ## Entry Stream Builder (`construct_entries`, `src/main.rs` lines 87-109) -/

/-- Separator resolution of `construct_entries` (`src/main.rs` lines 93-98):
`T::separator().and_then(|def| menu.config.separator.as_ref()
.map_or_else(|| Some(def), |sep| sep.custom_or(def)))`. -/
def resolveSeparator (famDefault : Option (List Char))
    (ovr : Option SeparatorOverride) : Option (List Char) :=
  famDefault.bind fun d =>
    match ovr with
    | none => some d
    | some sep => sep.custom_or d

/-- The loop body of `construct_entries` (`src/main.rs` lines 100-107):
for each entry, starting at index `k`, push the tag for its index, the
resolved separator if any, the entry's name, and a newline. -/
def constructEntriesFrom (encode : Nat → List Char)
    (sep : Option (List Char)) : Nat → List Entry → List Char
  | _, [] => []
  | k, e :: es =>
    encode k ++ (match sep with | some s => s | none => []) ++
      e.name ++ '\n' :: constructEntriesFrom encode sep (k + 1) es

/-- `construct_entries` (`src/main.rs` lines 87-109): resolve the separator
from the Tag family default and the configured override, then emit one line
per entry in order. -/
def constructEntries (encode : Nat → List Char)
    (famDefault : Option (List Char)) (menu : Menu) : List Char :=
  constructEntriesFrom encode
    (resolveSeparator famDefault menu.config.separator) 0 menu.entries

/-- The per-entry lines as the spec describes the Entry Stream Builder
output (spec section 4.2): for each entry in order, starting at index `k`,
the line `encode(index)` then the separator then the entry's name. -/
def specLines (encode : Nat → List Char) (sep : List Char) :
    Nat → List Entry → List (List Char)
  | _, [] => []
  | k, e :: es => (encode k ++ sep ++ e.name) :: specLines encode sep (k + 1) es

/-! ## Build-time capacity check (modelled from the spec) -/

/-- Error kinds of the core relevant to stream building (spec section 7). -/
inductive BuildError where
  | encodingCapacityExceeded
deriving DecidableEq

/-- Modelled from the spec: the Ternary build-time capacity check of
`tag.rs` is not under `src/`.  When the entry count exceeds what the
run's fixed-width code can represent without ambiguity (`3 ^ w` values),
building fails with `EncodingCapacityExceeded` before any stream text is
emitted (spec section 7); otherwise the stream is built as usual. -/
def ternaryBuildChecked (w : Nat) (famDefault : Option (List Char))
    (menu : Menu) : Except BuildError (List Char) :=
  if 3 ^ w < menu.entries.length then
    Except.error BuildError.encodingCapacityExceeded
  else
    Except.ok (constructEntries (ternEncodeW w) famDefault menu)

/-! ## Selection Resolver (`get_command_choice`, `src/main.rs` lines 111-139) -/

/-- Resolution errors of the Selection Resolver.  `invalidChoice` is the
`anyhow::bail!` of `src/main.rs` lines 130-133; `indexPanic` models the
out-of-bounds panic that Rust's `menu.entries[id]` (line 126) would raise
if a decoded index exceeded the entry count. -/
inductive ResolveError where
  | invalidChoice
  | indexPanic
deriving DecidableEq

/-- The per-choice closure of `get_command_choice`
(`src/main.rs` lines 121-134): recognize a tag on the trimmed choice; on
success look up the entry's `run` (an out-of-range index would panic, the
`indexPanic` case); otherwise the choice is ad-hoc if permitted and an
error if not. -/
def resolveChoice (decode : List Char → Option Nat) (entries : List Entry)
    (adHoc : Option Bool) (choice : List Char) :
    Except ResolveError (List Char) :=
  match decode choice with
  | some id =>
    match entries.get? id with
    | some e => Except.ok e.run
    | none => Except.error ResolveError.indexPanic
  | none =>
    if adHoc.getD false then Except.ok choice
    else Except.error ResolveError.invalidChoice

/-- `collect::<Result<Vec<_>, _>>()` (`src/main.rs` line 135): the first
error aborts the whole batch, otherwise all values are kept in order. -/
def collectResults :
    List (Except ResolveError (List Char)) →
      Except ResolveError (List (List Char))
  | [] => Except.ok []
  | x :: xs =>
    match x with
    | Except.error e => Except.error e
    | Except.ok v =>
      match collectResults xs with
      | Except.error e => Except.error e
      | Except.ok vs => Except.ok (v :: vs)

/-- Unicode-whitespace trimming of both ends, `str::trim` of Rust. -/
def trimChars (s : List Char) : List Char :=
  ((s.dropWhile Char.isWhitespace).reverse.dropWhile Char.isWhitespace).reverse

/-- `str::split('\n')` of Rust: split on every newline, keeping empty
pieces. -/
def splitOnChar (c : Char) : List Char → List (List Char)
  | [] => [[]]
  | x :: xs =>
    if x = c then [] :: splitOnChar c xs
    else
      match splitOnChar c xs with
      | [] => [[x]]
      | l :: ls => (x :: l) :: ls

/-- The trimmed, non-empty choice lines of the selector's raw output
(`src/main.rs` lines 120-121): trim the whole output, split on newlines,
trim each line, drop empty lines. -/
def choiceLines (raw : List Char) : List (List Char) :=
  (((splitOnChar '\n' (trimChars raw)).map trimChars).filter
    fun c => !c.isEmpty)

/-- The resolution part of `get_command_choice`
(`src/main.rs` lines 119-136): resolve every trimmed non-empty choice line
of the selector's raw output and collect the results, first error first. -/
def getCommandChoice (decode : List Char → Option Nat) (menu : Menu)
    (raw : List Char) : Except ResolveError (List (List Char)) :=
  collectResults ((choiceLines raw).map
    (resolveChoice decode menu.entries menu.config.ad_hoc))

/-! ## Helper lemmas: the Ternary width is the least sufficient width -/

lemma ternWidthAux_le (n : Nat) :
    ∀ fuel w w', n ≤ 3 ^ w' → w ≤ w' → ternWidthAux n fuel w ≤ w' := by
  intro fuel
  induction fuel with
  | zero => intro w w' _ hw; simpa [ternWidthAux] using hw
  | succ fuel ih =>
    intro w w' hw' hw
    by_cases h : n ≤ 3 ^ w
    · simpa [ternWidthAux, h] using hw
    · have hne : w ≠ w' := by rintro rfl; exact h hw'
      have : w + 1 ≤ w' := Nat.lt_of_le_of_ne hw hne
      simpa [ternWidthAux, h] using ih (w + 1) w' hw' this

lemma le_pow_ternWidthAux (n : Nat) :
    ∀ fuel w, (∃ v, w ≤ v ∧ v ≤ w + fuel ∧ n ≤ 3 ^ v) →
      n ≤ 3 ^ ternWidthAux n fuel w := by
  intro fuel
  induction fuel with
  | zero =>
    intro w ⟨v, hwv, hvw, hv⟩
    have : v = w := Nat.le_antisymm (by simpa using hvw) hwv
    simpa [ternWidthAux, this] using hv
  | succ fuel ih =>
    intro w ⟨v, hwv, hvw, hv⟩
    by_cases h : n ≤ 3 ^ w
    · simp [ternWidthAux, h]
    · have hne : w ≠ v := by rintro rfl; exact h hv
      have hwv' : w + 1 ≤ v := Nat.lt_of_le_of_ne hwv hne
      have : n ≤ 3 ^ ternWidthAux n fuel (w + 1) :=
        ih (w + 1) ⟨v, hwv', by omega, hv⟩
      simpa [ternWidthAux, h] using this

/-- The run's entry count always fits in the chosen Ternary width. -/
lemma le_pow_ternWidth (n : Nat) : n ≤ 3 ^ ternWidth n := by
  refine le_pow_ternWidthAux n n 0 ⟨n, Nat.zero_le n, by omega, ?_⟩
  exact Nat.le_of_lt (Nat.lt_pow_self (by norm_num) n)

/-- The modelled Ternary width is exactly `ceil(log3 n)`. -/
lemma ternWidth_eq_clog (n : Nat) : ternWidth n = Nat.clog 3 n := by
  refine Nat.le_antisymm ?_ ?_
  · exact ternWidthAux_le n n 0 (Nat.clog 3 n)
      (Nat.le_pow_clog (by norm_num) n) (Nat.zero_le _)
  · exact (Nat.le_pow_iff_clog_le (by norm_num)).mp (le_pow_ternWidth n)

/-! ## Helper lemmas: digit lists and their values -/

/-- The value of a little-endian digit list in base `b`. -/
def unDigits (b : Nat) : List Nat → Nat
  | [] => 0
  | d :: L => d + b * unDigits b L

lemma unDigits_eq_ofDigits (b : Nat) :
    ∀ L : List Nat, unDigits b L = Nat.ofDigits b L := by
  intro L
  induction L with
  | nil => simp [unDigits, Nat.ofDigits]
  | cons d L ih => simp [unDigits, Nat.ofDigits_cons, ih]

lemma unDigits_digits (b n : Nat) : unDigits b (Nat.digits b n) = n := by
  rw [unDigits_eq_ofDigits]
  exact Nat.ofDigits_digits b n

lemma unDigits_replicate_zero (b : Nat) :
    ∀ k, unDigits b (List.replicate k 0) = 0 := by
  intro k
  induction k with
  | zero => simp [unDigits]
  | succ k ih => simp [List.replicate, unDigits, ih]

lemma unDigits_padRight (b : Nat) (L : List Nat) (w : Nat) :
    unDigits b (padRight L w) = unDigits b L := by
  unfold padRight
  generalize w - L.length = k
  induction L with
  | nil => simpa [unDigits] using unDigits_replicate_zero b k
  | cons d L ih => simp [unDigits, ih]

/-- Folding most-significant-first over the reversed little-endian digits
recovers the value. -/
lemma foldl_reverse_unDigits (b : Nat) :
    ∀ L : List Nat,
      L.reverse.foldl (fun a d => b * a + d) 0 = unDigits b L := by
  intro L
  induction L with
  | nil => simp [unDigits]
  | cons d L ih =>
    simp only [List.reverse_cons, List.foldl_append, ih, List.foldl]
    simp [unDigits]
    ring

/-! ## Helper lemmas: the Decimal codec -/

lemma digitChar_isDigit {d : Nat} (h : d < 10) :
    (Nat.digitChar d).isDigit = true := by
  interval_cases d <;> decide

lemma digitChar_toNat {d : Nat} (h : d < 10) :
    (Nat.digitChar d).toNat = 48 + d := by
  interval_cases d <;> decide

lemma decimalEncode_all_digits (i : Nat) :
    ∀ c ∈ decimalEncode i, c.isDigit = true := by
  intro c hc
  unfold decimalEncode at hc
  by_cases h : i = 0
  · simp [h] at hc
    simp [hc]
  · simp only [h, if_false, List.mem_reverse, List.mem_map] at hc
    obtain ⟨d, hd, rfl⟩ := hc
    exact digitChar_isDigit (Nat.digits_lt_base (by norm_num) hd)

lemma decimalEncode_ne_nil (i : Nat) : decimalEncode i ≠ [] := by
  unfold decimalEncode
  by_cases h : i = 0
  · simp [h]
  · simp [h, Nat.digits_ne_nil_iff_ne_zero.mpr h]

lemma digitsVal_decimalEncode (i : Nat) : digitsVal (decimalEncode i) = i := by
  unfold digitsVal decimalEncode
  by_cases h : i = 0
  · simp [h]
  · rw [if_neg h, ← List.map_reverse, List.foldl_map,
      List.foldl_ext _ (fun a d => 10 * a + d)]
    · rw [foldl_reverse_unDigits 10 (Nat.digits 10 i), unDigits_digits]
    · intro a d hd
      rw [List.mem_reverse] at hd
      have := digitChar_toNat (Nat.digits_lt_base (by norm_num) hd)
      omega

/-- Decimal round-trip: decoding a freshly encoded in-range index recovers
it. -/
lemma decimalDecode_decimalEncode {n i : Nat} (h : i < n) :
    decimalDecode n (decimalEncode i) = some i := by
  unfold decimalDecode
  have htw : (decimalEncode i).takeWhile Char.isDigit = decimalEncode i :=
    List.takeWhile_eq_self_iff.mpr (decimalEncode_all_digits i)
  simp only [htw, digitsVal_decimalEncode]
  rw [if_neg (decimalEncode_ne_nil i), if_pos h]

/-- Decimal decode accepts only indices below the entry count. -/
lemma decimalDecode_lt {n : Nat} {s : List Char} {i : Nat}
    (h : decimalDecode n s = some i) : i < n := by
  unfold decimalDecode at h
  dsimp only at h
  split_ifs at h with h1 h2
  exact (Option.some.inj h) ▸ h2

/-! ## Helper lemmas: the Ternary codec -/

lemma ternSymVal_ternSym {d : Nat} (h : d < 3) :
    ternSymVal (ternSym d) = some d := by
  interval_cases d <;> decide

lemma symVals_map_ternSym {M : List Nat} (h : ∀ d ∈ M, d < 3) :
    symVals (M.map ternSym) = some M := by
  induction M with
  | nil => rfl
  | cons d M ih =>
    have hd := ternSymVal_ternSym (h d (List.mem_cons_self d M))
    have hM := ih fun x hx => h x (List.mem_cons_of_mem d hx)
    simp [symVals, hd, hM]

lemma digits3_lt (i : Nat) : ∀ d ∈ Nat.digits 3 i, d < 3 :=
  fun _ hd => Nat.digits_lt_base (by norm_num) hd

lemma padRight_all_lt {L : List Nat} {w : Nat} (h : ∀ d ∈ L, d < 3) :
    ∀ d ∈ padRight L w, d < 3 := by
  intro d hd
  rcases List.mem_append.mp hd with h1 | h2
  · exact h d h1
  · rcases List.mem_replicate.mp h2 with ⟨_, rfl⟩
    norm_num

lemma padRight_length {L : List Nat} {w : Nat} (h : L.length ≤ w) :
    (padRight L w).length = w := by
  simp only [padRight, List.length_append, List.length_replicate]
  omega

lemma digits3_len_le {i w : Nat} (h : i < 3 ^ w) :
    (Nat.digits 3 i).length ≤ w := by
  by_cases h0 : i = 0
  · simp [h0]
  · rw [Nat.digits_len 3 i (by norm_num) h0]
    have := Nat.log_lt_of_lt_pow h0 h
    omega

lemma ternEncodeW_length {w i : Nat} (h : i < 3 ^ w) :
    (ternEncodeW w i).length = w := by
  unfold ternEncodeW
  rw [List.length_reverse, List.length_map, padRight_length (digits3_len_le h)]

lemma symVals_ternEncodeW (w i : Nat) :
    symVals (ternEncodeW w i) =
      some ((padRight (Nat.digits 3 i) w).reverse) := by
  unfold ternEncodeW
  rw [← List.map_reverse]
  exact symVals_map_ternSym fun d hd =>
    padRight_all_lt (digits3_lt i) d (List.mem_reverse.mp hd)

lemma ternFold_padded (w i : Nat) :
    ternFold ((padRight (Nat.digits 3 i) w).reverse) = i := by
  unfold ternFold
  rw [foldl_reverse_unDigits 3, unDigits_padRight, unDigits_digits]

/-- Fixed-width Ternary encoding never collides: it pads but never
truncates, so distinct indices always get distinct symbol strings. -/
lemma ternEncodeW_inj {w i j : Nat} (hne : i ≠ j) :
    ternEncodeW w i ≠ ternEncodeW w j := by
  intro heq
  have h1 := symVals_ternEncodeW w i
  have h2 := symVals_ternEncodeW w j
  rw [heq, h2] at h1
  have hpad := Option.some.inj h1
  have hval := congrArg ternFold hpad
  rw [ternFold_padded, ternFold_padded] at hval
  exact hne hval.symm

/-- Ternary round-trip: decoding a freshly encoded in-range index recovers
it. -/
lemma ternDecode_ternEncode {n i : Nat} (h : i < n) :
    ternDecode n (ternEncode n i) = some i := by
  have hcap : i < 3 ^ ternWidth n := lt_of_lt_of_le h (le_pow_ternWidth n)
  unfold ternDecode ternEncode
  dsimp only
  rw [List.take_of_length_le (le_of_eq (ternEncodeW_length hcap)),
    if_pos (ternEncodeW_length hcap), symVals_ternEncodeW]
  simp only [ternFold_padded, if_pos h]

/-! ## Helper lemmas: line splitting -/

lemma splitOnChar_ne_nil (c : Char) : ∀ s, splitOnChar c s ≠ [] := by
  intro s
  induction s with
  | nil => simp [splitOnChar]
  | cons x xs ih =>
    by_cases h : x = c
    · simp [splitOnChar, h]
    · simp only [splitOnChar, h, if_false]
      cases hs : splitOnChar c xs with
      | nil => simp
      | cons l ls => simp

lemma splitOnChar_append {c : Char} :
    ∀ {a : List Char}, c ∉ a → ∀ r,
      splitOnChar c (a ++ c :: r) = a :: splitOnChar c r := by
  intro a
  induction a with
  | nil => intro _ r; simp [splitOnChar]
  | cons x a ih =>
    intro h r
    rw [List.mem_cons, not_or] at h
    obtain ⟨hcx, hca⟩ := h
    have hxc : ¬x = c := fun hx => hcx hx.symm
    simp only [List.cons_append, splitOnChar, hxc, if_false, List.append_eq]
    rw [ih hca r]

lemma splitOnChar_not_mem {c : Char} :
    ∀ {s : List Char}, c ∉ s → splitOnChar c s = [s] := by
  intro s
  induction s with
  | nil => intro _; rfl
  | cons x xs ih =>
    intro h
    rw [List.mem_cons, not_or] at h
    have hxc : ¬x = c := fun hx => h.1 hx.symm
    simp only [splitOnChar, hxc, if_false]
    rw [ih h.2]

/-! ## Helper lemmas: the stream builder emits one line per entry -/

lemma matchSep_getD (o : Option (List Char)) :
    (match o with | some s => s | none => ([] : List Char)) = o.getD [] := by
  cases o <;> rfl

lemma splitOnChar_constructEntriesFrom (encode : Nat → List Char)
    (sepOpt : Option (List Char)) (hsep : '\n' ∉ sepOpt.getD [])
    (he : ∀ i, '\n' ∉ encode i) :
    ∀ (es : List Entry), (∀ e ∈ es, '\n' ∉ e.name) → ∀ k : Nat,
      splitOnChar '\n' (constructEntriesFrom encode sepOpt k es) =
        specLines encode (sepOpt.getD []) k es ++ [[]] := by
  intro es
  induction es with
  | nil => intro _ k; rfl
  | cons e es ih =>
    intro hn k
    have hstep : constructEntriesFrom encode sepOpt k (e :: es) =
        (encode k ++ sepOpt.getD [] ++ e.name) ++
          '\n' :: constructEntriesFrom encode sepOpt (k + 1) es := by
      simp [constructEntriesFrom, matchSep_getD, List.append_assoc]
    have hline : '\n' ∉ encode k ++ sepOpt.getD [] ++ e.name := by
      intro hmem
      rcases List.mem_append.mp hmem with h1 | h2
      · rcases List.mem_append.mp h1 with h3 | h4
        · exact he k h3
        · exact hsep h4
      · exact hn e (List.mem_cons_self e es) h2
    rw [hstep, splitOnChar_append hline,
      ih (fun e' h' => hn e' (List.mem_cons_of_mem _ h')) (k + 1)]
    rfl

/-! ## Helper lemmas: batch collection of resolution results -/

lemma collectResults_error_of_mem :
    ∀ {l : List (Except ResolveError (List Char))}
      {x : Except ResolveError (List Char)}, x ∈ l →
      (∀ v, x ≠ Except.ok v) → ∃ e, collectResults l = Except.error e := by
  intro l
  induction l with
  | nil => intro x hx; simp at hx
  | cons y l ih =>
    intro x hx hbad
    rcases List.mem_cons.mp hx with rfl | hmem
    · cases x with
      | error e => exact ⟨e, rfl⟩
      | ok v => exact absurd rfl (hbad v)
    · cases y with
      | error e => exact ⟨e, rfl⟩
      | ok v =>
        obtain ⟨e, he⟩ := ih hmem hbad
        exact ⟨e, by simp [collectResults, he]⟩

lemma collectResults_ne_error {l : List (Except ResolveError (List Char))}
    (err : ResolveError) (h : ∀ x ∈ l, x ≠ Except.error err) :
    collectResults l ≠ Except.error err := by
  induction l with
  | nil => simp [collectResults]
  | cons y l ih =>
    intro heq
    cases y with
    | error e =>
      simp only [collectResults] at heq
      injection heq with h1
      exact h _ (List.mem_cons_self _ _) (h1 ▸ rfl)
    | ok v =>
      simp only [collectResults] at heq
      cases hc : collectResults l with
      | error e =>
        rw [hc] at heq
        exact ih (fun x hx => h x (List.mem_cons_of_mem _ hx)) (hc.trans heq)
      | ok vs =>
        rw [hc] at heq
        exact Except.noConfusion heq

/-! ## Helper lemmas: the Selection Resolver -/

lemma resolveChoice_ne_indexPanic {decode : List Char → Option Nat}
    {entries : List Entry} {adHoc : Option Bool} {choice : List Char}
    (hdec : ∀ i, decode choice = some i → i < entries.length) :
    resolveChoice decode entries adHoc choice ≠
      Except.error ResolveError.indexPanic := by
  unfold resolveChoice
  cases hd : decode choice with
  | none => by_cases hah : adHoc.getD false <;> simp [hah]
  | some i =>
    have hi := hdec i hd
    have he : entries.get? i = some (entries.get ⟨i, hi⟩) := List.get?_eq_get hi
    rw [List.get?_eq_getElem?] at he
    simp [he]

/-- With a decoder that only ever produces in-range indices, batch
resolution can never hit the out-of-bounds panic. -/
lemma getCommandChoice_ne_indexPanic {decode : List Char → Option Nat}
    {menu : Menu}
    (hdec : ∀ s i, decode s = some i → i < menu.entries.length)
    (raw : List Char) :
    getCommandChoice decode menu raw ≠
      Except.error ResolveError.indexPanic := by
  unfold getCommandChoice
  refine collectResults_ne_error _ ?_
  intro x hx
  rw [List.mem_map] at hx
  obtain ⟨c, _, rfl⟩ := hx
  exact resolveChoice_ne_indexPanic fun i h => hdec c i h

/-- With ad-hoc disabled, one undecodable choice line aborts the whole
batch with an error. -/
lemma getCommandChoice_error_of_unmatched {decode : List Char → Option Nat}
    {menu : Menu} {raw : List Char}
    (had : menu.config.ad_hoc.getD false = false)
    (hbad : ∃ c ∈ choiceLines raw, decode c = none) :
    ∃ e, getCommandChoice decode menu raw = Except.error e := by
  obtain ⟨c, hc, hdec⟩ := hbad
  unfold getCommandChoice
  refine collectResults_error_of_mem (List.mem_map_of_mem _ hc) ?_
  intro v
  simp [resolveChoice, hdec, had]

/-! ## Claim theorems -/

/-- C1: for every entry count `N ≥ 1` and every index `i` in `[0, N)`,
decoding the encoded tag recovers the same index,
`decode(encode(i)) == i`, for both the Decimal and the Ternary Tag
family. -/
theorem claim_C1_round_trip (n i : Nat) (_hn : 1 ≤ n) (hi : i < n) :
    decimalDecode n (decimalEncode i) = some i ∧
      ternDecode n (ternEncode n i) = some i :=
  ⟨decimalDecode_decimalEncode hi, ternDecode_ternEncode hi⟩

/-- Witness for C1 at `N = 3`, `i = 2`. -/
theorem claim_C1_round_trip_witness :
    (1 ≤ 3 ∧ 2 < 3) ∧
      (decimalDecode 3 (decimalEncode 2) = some 2 ∧
        ternDecode 3 (ternEncode 3 2) = some 2) :=
  ⟨⟨by decide, by decide⟩, claim_C1_round_trip 3 2 (by decide) (by decide)⟩

/-- C2: a selector line whose leading ASCII digit run parses to an
unsigned integer `≥ N` is no match for Decimal decode (the line is treated
as untagged), and Decimal resolution never reaches the out-of-bounds
panic: malformed text is a normal decode failure, not an exception. -/
theorem claim_C2_out_of_range (n : Nat) (s : List Char)
    (hds : s.takeWhile Char.isDigit ≠ [])
    (hge : n ≤ digitsVal (s.takeWhile Char.isDigit)) :
    decimalDecode n s = none ∧
      ∀ (menu : Menu) (raw : List Char), menu.entries.length = n →
        getCommandChoice (decimalDecode n) menu raw ≠
          Except.error ResolveError.indexPanic := by
  constructor
  · unfold decimalDecode
    dsimp only
    rw [if_neg hds, if_neg (by omega)]
  · intro menu raw hlen
    exact getCommandChoice_ne_indexPanic
      (fun _ _ h => hlen ▸ decimalDecode_lt h) raw

/-- Witness for C2 at `N = 2` and the line `"5x"`, resolved against a
two-entry menu. -/
theorem claim_C2_out_of_range_witness :
    (['5', 'x'].takeWhile Char.isDigit ≠ [] ∧
        2 ≤ digitsVal (['5', 'x'].takeWhile Char.isDigit)) ∧
      decimalDecode 2 ['5', 'x'] = none ∧
      getCommandChoice (decimalDecode 2)
          ⟨[⟨['a'], ['b']⟩, ⟨['c'], ['d']⟩], ⟨Option.none, Option.none⟩⟩
          ['5', 'x'] ≠
        Except.error ResolveError.indexPanic :=
  ⟨⟨by decide, by decide⟩,
    (claim_C2_out_of_range 2 ['5', 'x'] (by decide) (by decide)).1,
    (claim_C2_out_of_range 2 ['5', 'x'] (by decide) (by decide)).2
      ⟨[⟨['a'], ['b']⟩, ⟨['c'], ['d']⟩], ⟨Option.none, Option.none⟩⟩
      ['5', 'x'] rfl⟩

/-- C3 counterexample: the claim says a custom user-configured separator
takes precedence over everything, but when the Tag family declares no
built-in default separator, `construct_entries` drops a custom override
and uses no separator at all. -/
theorem claim_C3_counterexample :
    resolveSeparator Option.none (some (SeparatorOverride.custom ['-'])) =
        Option.none ∧
      resolveSeparator Option.none (some (SeparatorOverride.custom ['-'])) ≠
        some ['-'] := by
  constructor
  · rfl
  · decide

/-- C3 as amended: when the Tag family declares a built-in default
separator, resolution follows the claimed precedence (custom override
first, explicit "no separator" override yields none, otherwise the family
default); when the family declares no built-in default, no separator is
used regardless of any override. -/
theorem claim_C3_separator_precedence (d s : List Char)
    (ovr : Option SeparatorOverride) :
    resolveSeparator (some d) (some (SeparatorOverride.custom s)) = some s ∧
      resolveSeparator (some d) (some SeparatorOverride.noSeparator) =
        Option.none ∧
      resolveSeparator (some d) Option.none = some d ∧
      resolveSeparator Option.none ovr = Option.none := by
  refine ⟨rfl, rfl, rfl, ?_⟩
  cases ovr <;> rfl

/-- Witness for the amended C3 with family default `" "` and custom
override `"-"`, as in the spec's precedence example. -/
theorem claim_C3_separator_precedence_witness :
    resolveSeparator (some [' ']) (some (SeparatorOverride.custom ['-'])) =
        some ['-'] ∧
      resolveSeparator (some [' ']) (some SeparatorOverride.noSeparator) =
        Option.none ∧
      resolveSeparator (some [' ']) Option.none = some [' '] ∧
      resolveSeparator Option.none (some SeparatorOverride.noSeparator) =
        Option.none :=
  claim_C3_separator_precedence [' '] ['-']
    (some SeparatorOverride.noSeparator)

/-- C4: resolution is all-or-nothing: with ad-hoc disabled, a batch
containing any trimmed non-empty line that decodes to no tag yields an
error for the entire batch, and no command list is returned. -/
theorem claim_C4_all_or_nothing (decode : List Char → Option Nat)
    (menu : Menu) (raw : List Char)
    (had : menu.config.ad_hoc.getD false = false)
    (hbad : ∃ c ∈ choiceLines raw, decode c = none) :
    (∃ e, getCommandChoice decode menu raw = Except.error e) ∧
      ∀ cmds, getCommandChoice decode menu raw ≠ Except.ok cmds := by
  obtain ⟨e, he⟩ := getCommandChoice_error_of_unmatched had hbad
  refine ⟨⟨e, he⟩, ?_⟩
  intro cmds hc
  rw [he] at hc
  exact Except.noConfusion hc

/-- Witness for C4: one resolvable line and one unmatched line, ad-hoc
unset, against a one-entry menu. -/
theorem claim_C4_all_or_nothing_witness :
    ((⟨[⟨['e'], ['r']⟩], ⟨Option.none, Option.none⟩⟩ :
          Menu).config.ad_hoc.getD false = false ∧
        (∃ c ∈ choiceLines ['0', '\n', 'x'], decimalDecode 1 c = none)) ∧
      ∃ e, getCommandChoice (decimalDecode 1)
          ⟨[⟨['e'], ['r']⟩], ⟨Option.none, Option.none⟩⟩ ['0', '\n', 'x'] =
        Except.error e :=
  ⟨⟨by decide, by decide⟩,
    (claim_C4_all_or_nothing (decimalDecode 1)
      ⟨[⟨['e'], ['r']⟩], ⟨Option.none, Option.none⟩⟩ ['0', '\n', 'x']
      (by decide) (by decide)).1⟩

/-- C5: for a trimmed non-empty selector line in which no tag is
recognized: with `ad_hoc = false` resolution fails with the invalid-choice
error; with `ad_hoc = true` the line resolves to itself verbatim. -/
theorem claim_C5_adhoc_gating (decode : List Char → Option Nat)
    (entries : List Entry) (sep : Option SeparatorOverride)
    (line : List Char) (htrim : trimChars line = line) (hne : line ≠ [])
    (hnl : '\n' ∉ line) (hdec : decode line = none) :
    getCommandChoice decode ⟨entries, ⟨sep, some false⟩⟩ line =
        Except.error ResolveError.invalidChoice ∧
      getCommandChoice decode ⟨entries, ⟨sep, some true⟩⟩ line =
        Except.ok [line] := by
  have hcl : choiceLines line = [line] := by
    unfold choiceLines
    rw [htrim, splitOnChar_not_mem hnl]
    cases line with
    | nil => exact absurd rfl hne
    | cons x xs => simp [htrim]
  constructor
  · unfold getCommandChoice
    rw [hcl]
    simp [resolveChoice, hdec, collectResults]
  · unfold getCommandChoice
    rw [hcl]
    simp [resolveChoice, hdec, collectResults]

/-- Witness for C5 at the line `"x"` with a Decimal decoder for one
entry. -/
theorem claim_C5_adhoc_gating_witness :
    (trimChars ['x'] = ['x'] ∧ ['x'] ≠ ([] : List Char) ∧ '\n' ∉ ['x'] ∧
        decimalDecode 1 ['x'] = none) ∧
      getCommandChoice (decimalDecode 1)
          ⟨[⟨['e'], ['r']⟩], ⟨Option.none, some false⟩⟩ ['x'] =
        Except.error ResolveError.invalidChoice ∧
      getCommandChoice (decimalDecode 1)
          ⟨[⟨['e'], ['r']⟩], ⟨Option.none, some true⟩⟩ ['x'] =
        Except.ok [['x']] :=
  ⟨⟨by decide, by decide, by decide, by decide⟩,
    claim_C5_adhoc_gating (decimalDecode 1) [⟨['e'], ['r']⟩] Option.none
      ['x'] (by decide) (by decide) (by decide) (by decide)⟩

/-- C6: Ternary encodings are fixed-width of exactly `ceil(log3 N)`
symbols, injective, and prefix-free: for `i ≠ j` in range, `encode(i)` is
not a prefix (strict or not) of `encode(j)`. -/
theorem claim_C6_ternary_prefix_free (n i j : Nat) (hi : i < n) (hj : j < n)
    (hne : i ≠ j) :
    (ternEncode n i).length = Nat.clog 3 n ∧
      ∀ t, ternEncode n i ++ t ≠ ternEncode n j := by
  have hcapi : i < 3 ^ ternWidth n := lt_of_lt_of_le hi (le_pow_ternWidth n)
  have hcapj : j < 3 ^ ternWidth n := lt_of_lt_of_le hj (le_pow_ternWidth n)
  constructor
  · simp only [ternEncode]
    rw [ternEncodeW_length hcapi, ternWidth_eq_clog]
  · intro t heq
    have hlen := congrArg List.length heq
    simp only [ternEncode, List.length_append, ternEncodeW_length hcapi,
      ternEncodeW_length hcapj] at hlen
    have ht : t = [] := List.length_eq_zero.mp (by omega)
    rw [ht, List.append_nil] at heq
    exact ternEncodeW_inj hne heq

/-- Witness for C6 at `N = 4`, `i = 1`, `j = 3` (width 2, per the claim's
`3^1 = 3 < 4 ≤ 3^2 = 9` scenario). -/
theorem claim_C6_ternary_prefix_free_witness :
    (1 < 4 ∧ 3 < 4 ∧ 1 ≠ 3) ∧
      ((ternEncode 4 1).length = Nat.clog 3 4 ∧
        ∀ t, ternEncode 4 1 ++ t ≠ ternEncode 4 3) :=
  ⟨⟨by decide, by decide, by decide⟩,
    claim_C6_ternary_prefix_free 4 1 3 (by decide) (by decide) (by decide)⟩

/-- C7: when the entry count exceeds what the fixed-width Ternary code can
represent unambiguously, the build fails with the capacity error before
any stream text is emitted; otherwise the stream is produced, and the
encoding never lets two indices collide. -/
theorem claim_C7_capacity (w : Nat) (famDefault : Option (List Char))
    (menu : Menu) :
    (3 ^ w < menu.entries.length →
        ternaryBuildChecked w famDefault menu =
          Except.error BuildError.encodingCapacityExceeded) ∧
      (menu.entries.length ≤ 3 ^ w →
        ternaryBuildChecked w famDefault menu =
          Except.ok (constructEntries (ternEncodeW w) famDefault menu)) ∧
      ∀ i j : Nat, i ≠ j → ternEncodeW w i ≠ ternEncodeW w j := by
  refine ⟨?_, ?_, ?_⟩
  · intro h
    unfold ternaryBuildChecked
    rw [if_pos h]
  · intro h
    unfold ternaryBuildChecked
    rw [if_neg (by omega)]
  · intro i j hne
    exact ternEncodeW_inj hne

/-- Witness for C7: width 1 with four entries overflows (capacity 3) and
errors; width 2 suffices and builds; indices 0 and 1 never collide. -/
theorem claim_C7_capacity_witness :
    (3 ^ 1 < 4 ∧
        ternaryBuildChecked 1 Option.none
            ⟨[⟨['a'], ['a']⟩, ⟨['b'], ['b']⟩, ⟨['c'], ['c']⟩,
              ⟨['d'], ['d']⟩], ⟨Option.none, Option.none⟩⟩ =
          Except.error BuildError.encodingCapacityExceeded) ∧
      ternEncodeW 2 0 ≠ ternEncodeW 2 1 :=
  ⟨⟨by decide,
      (claim_C7_capacity 1 Option.none
        ⟨[⟨['a'], ['a']⟩, ⟨['b'], ['b']⟩, ⟨['c'], ['c']⟩,
          ⟨['d'], ['d']⟩], ⟨Option.none, Option.none⟩⟩).1 (by decide)⟩,
    (claim_C7_capacity 2 Option.none
      ⟨[], ⟨Option.none, Option.none⟩⟩).2.2 0 1 (by decide)⟩

/-- C8: the Entry Stream Builder emits exactly one line per entry, in
input order, of the form `encode(index)`, then the resolved separator if
any, then the entry's name, each terminated by a newline; empty and
whitespace-only names are still emitted and nothing is reordered or
filtered. -/
theorem claim_C8_stream_lines (encode : Nat → List Char)
    (famDefault : Option (List Char)) (menu : Menu)
    (he : ∀ i, '\n' ∉ encode i)
    (hsep : '\n' ∉ (resolveSeparator famDefault menu.config.separator).getD [])
    (hnames : ∀ e ∈ menu.entries, '\n' ∉ e.name) :
    splitOnChar '\n' (constructEntries encode famDefault menu) =
      specLines encode
        ((resolveSeparator famDefault menu.config.separator).getD [])
        0 menu.entries ++ [[]] := by
  unfold constructEntries
  exact splitOnChar_constructEntriesFrom encode _ hsep he menu.entries hnames 0

/-- Witness for C8: a two-entry menu whose second entry has an empty name,
with a constant one-character encoder and no separator anywhere. -/
theorem claim_C8_stream_lines_witness :
    ((∀ i : Nat, '\n' ∉ (fun _ : Nat => ['#']) i) ∧
        '\n' ∉ (resolveSeparator Option.none
          (⟨[⟨['e'], ['r']⟩, ⟨[], ['q']⟩],
            ⟨Option.none, Option.none⟩⟩ : Menu).config.separator).getD [] ∧
        ∀ e ∈ (⟨[⟨['e'], ['r']⟩, ⟨[], ['q']⟩],
          ⟨Option.none, Option.none⟩⟩ : Menu).entries, '\n' ∉ e.name) ∧
      splitOnChar '\n'
          (constructEntries (fun _ : Nat => ['#']) Option.none
            ⟨[⟨['e'], ['r']⟩, ⟨[], ['q']⟩], ⟨Option.none, Option.none⟩⟩) =
        specLines (fun _ : Nat => ['#'])
          ((resolveSeparator Option.none
            (⟨[⟨['e'], ['r']⟩, ⟨[], ['q']⟩],
              ⟨Option.none, Option.none⟩⟩ : Menu).config.separator).getD [])
          0 [⟨['e'], ['r']⟩, ⟨[], ['q']⟩] ++ [[]] :=
  ⟨⟨fun _ => (by decide : '\n' ∉ ['#']), by decide, by decide⟩,
    claim_C8_stream_lines (fun _ : Nat => ['#']) Option.none
      ⟨[⟨['e'], ['r']⟩, ⟨[], ['q']⟩], ⟨Option.none, Option.none⟩⟩
      (fun _ => (by decide : '\n' ∉ ['#'])) (by decide) (by decide)⟩

/-- C9: whenever decode recovers a valid index `i` on a trimmed selector
line, the resolved command is exactly the `run` field of the entry at
index `i`, regardless of what text follows the recognized tag prefix: the
separator-plus-name suffix is never re-validated. -/
theorem claim_C9_tag_authoritative (decode : List Char → Option Nat)
    (entries : List Entry) (adHoc : Option Bool) (choice : List Char)
    (i : Nat) (e : Entry) (hdec : decode choice = some i)
    (hget : entries.get? i = some e) :
    resolveChoice decode entries adHoc choice = Except.ok e.run := by
  unfold resolveChoice
  simp only [hdec, hget]

/-- Witness for C9: the line `"0zz"` (tag `0` followed by text that is not
the emitted separator-plus-name) still resolves to entry 0's command. -/
theorem claim_C9_tag_authoritative_witness :
    (decimalDecode 1 ['0', 'z', 'z'] = some 0 ∧
        [(⟨['n'], ['r', 'u', 'n']⟩ : Entry)].get? 0 =
          some ⟨['n'], ['r', 'u', 'n']⟩) ∧
      resolveChoice (decimalDecode 1) [⟨['n'], ['r', 'u', 'n']⟩]
          Option.none ['0', 'z', 'z'] =
        Except.ok (⟨['n'], ['r', 'u', 'n']⟩ : Entry).run :=
  ⟨⟨by decide, by decide⟩,
    claim_C9_tag_authoritative (decimalDecode 1) [⟨['n'], ['r', 'u', 'n']⟩]
      Option.none ['0', 'z', 'z'] 0 ⟨['n'], ['r', 'u', 'n']⟩ (by decide)
      (by decide)⟩

/-- C10: with the `ad_hoc` flag absent from the configuration, the
Selection Resolver behaves exactly as with `ad_hoc = false`; in
particular any unmatched trimmed non-empty line makes the whole
resolution fail with an error. -/
theorem claim_C10_adhoc_absent (decode : List Char → Option Nat)
    (entries : List Entry) (sep : Option SeparatorOverride)
    (raw : List Char) :
    getCommandChoice decode ⟨entries, ⟨sep, Option.none⟩⟩ raw =
        getCommandChoice decode ⟨entries, ⟨sep, some false⟩⟩ raw ∧
      ((∃ c ∈ choiceLines raw, decode c = none) →
        ∃ e, getCommandChoice decode ⟨entries, ⟨sep, Option.none⟩⟩ raw =
          Except.error e) := by
  constructor
  · rfl
  · exact fun hbad => getCommandChoice_error_of_unmatched rfl hbad

/-- Witness for C10 on the single unmatched line `"x"`. -/
theorem claim_C10_adhoc_absent_witness :
    (getCommandChoice (decimalDecode 1)
          ⟨[⟨['e'], ['r']⟩], ⟨Option.none, Option.none⟩⟩ ['x'] =
        getCommandChoice (decimalDecode 1)
          ⟨[⟨['e'], ['r']⟩], ⟨Option.none, some false⟩⟩ ['x']) ∧
      ∃ e, getCommandChoice (decimalDecode 1)
          ⟨[⟨['e'], ['r']⟩], ⟨Option.none, Option.none⟩⟩ ['x'] =
        Except.error e :=
  ⟨(claim_C10_adhoc_absent (decimalDecode 1) [⟨['e'], ['r']⟩] Option.none
      ['x']).1,
    (claim_C10_adhoc_absent (decimalDecode 1) [⟨['e'], ['r']⟩] Option.none
      ['x']).2 (by decide)⟩

end DmenuManager
